import Mathlib

/-!
# Verification of rkt stage1 pod/cgroup launch core

Shallow embedding of `stage1/init/common/pod.go` and the cgroup helper file
(`common/cgroup` package) of the rkt repository, together with theorems that
settle the frozen claims about this code.

Conventions of the embedding:
* Go strings are Lean `String`s; the handful of Go standard-library string
  helpers used by the code (`strings.HasPrefix`, `strings.TrimPrefix`,
  `strings.Split`, `strconv.Atoi`, `strconv.Itoa`, `strings.Join`,
  `filepath.IsAbs`) are modelled one-for-one as executable Lean functions
  with a `Go` suffix.
* Absolute, already-cleaned filesystem paths are represented by their list of
  components (`List String`); `render` turns such a list back into the
  slash-separated string Go manipulates.  `filepath.Join` followed by
  `filepath.Clean` on an absolute base is modelled by the component-stack
  function `cleanStep` / `joinPath`.
* The filesystem visible to `os.Lstat`/`os.Readlink` is a finite association
  list from paths to entries; absence means `IsNotExist`.
* Fallible Go functions returning `(T, error)` become `Except String T`.
* Plain file writes (`writeEnvFile`, `generateSysusers`, unit serialization)
  are I/O whose only failure mode is an I/O error; they are outside the pure
  fragments embedded here and are noted where elided.
-/

/-- `strconv.Atoi` / the `%d` verb of `fmt.Sscanf`: an optional sign followed
by one or more decimal digits; anything else fails. -/
def digitsToNatGo : List Char → Option Nat
  | [] => none
  | ds =>
    ds.foldl (fun acc c =>
      match acc with
      | none => none
      | some n => if c.isDigit then some (n * 10 + (c.toNat - '0'.toNat)) else none)
      (some 0)

/-- Model of Go `strconv.Atoi` (64-bit overflow is not modelled; the inputs in
this development are far below the limit). -/
def atoiGo (s : String) : Option Int :=
  match s.data with
  | [] => none
  | '+' :: ds => (digitsToNatGo ds).map Int.ofNat
  | '-' :: ds => (digitsToNatGo ds).map (fun n => -(n : Int))
  | ds => (digitsToNatGo ds).map Int.ofNat

/-- Model of Go `strings.HasPrefix` (byte-level prefix test). -/
def hasPrefixGo (s pre : String) : Bool :=
  pre.data.isPrefixOf s.data

/-- Model of Go `strings.TrimPrefix`. -/
def trimPrefixGo (s pre : String) : String :=
  if hasPrefixGo s pre then String.mk (s.data.drop pre.data.length) else s

/-- Model of Go `filepath.IsAbs` on slash paths. -/
def isAbsGo (s : String) : Bool :=
  match s.data with
  | '/' :: _ => true
  | _ => false

/-- Worker for `splitByGo`: accumulate the current field (reversed) while
scanning the characters. -/
def splitByGoAux (p : Char → Bool) : List Char → List Char → List String
  | [], acc => [String.mk acc.reverse]
  | c :: rest, acc =>
    if p c then String.mk acc.reverse :: splitByGoAux p rest []
    else splitByGoAux p rest (c :: acc)

/-- Splitting a string at every separator character, keeping empty fields:
the behavior of Go `strings.Split` with a one-character separator (and of
`strings.FieldsFunc` after dropping empties).  `""` splits to `[""]`. -/
def splitByGo (p : Char → Bool) (s : String) : List String :=
  splitByGoAux p s.data []

/-- Go `strings.Split(s, "/")`. -/
def splitOnSlashGo (s : String) : List String :=
  splitByGo (fun c => c = '/') s

/-- Model of Go `strings.Join(xs, sep)`. -/
def joinGo (xs : List String) (sep : String) : String :=
  match xs with
  | [] => ""
  | [x] => x
  | x :: rest => x ++ sep ++ joinGo rest sep

/-- One `(section, name, value)` triple of a systemd unit file, the result of
`unit.NewUnitOption(Section, Name, Value)` in the Go code. -/
structure UnitOption where
  Section : String
  Name : String
  Value : String
deriving DecidableEq, Repr

/-! ## IsolatorMapper: `addCpuLimit`, `addMemoryLimit`, `MaybeAddIsolator`
(cgroup package, `src/unnamed/part_000`). -/

/-- `k8s.io/kubernetes/pkg/api/resource.Quantity`, modelled at milli
precision: `milli` is the exact quantity in thousandths of a unit (the
quantities appearing in appc isolators are integers or milli-quantities). -/
structure Quantity where
  milli : Int
deriving DecidableEq, Repr

/-- `Quantity.Value()`: the quantity rounded up to a whole number of units. -/
def Quantity.value (q : Quantity) : Int :=
  Int.ediv (q.milli + 999) 1000

/-- `Quantity.MilliValue()`: the quantity in milli-units (exact at our
precision). -/
def Quantity.milliValue (q : Quantity) : Int :=
  q.milli

/-- `resource.MaxMilliValue = int64(((1 << 63) - 1) / 1000)`. -/
def maxMilliValue : Int := 9223372036854775

/-- `addCpuLimit` from the cgroup package: reject a quantity whose whole-unit
value exceeds `resource.MaxMilliValue`, otherwise append
`CPUQuota=<millivalue/10>%` (Go integer division truncates toward zero,
modelled by `Int.tdiv`). -/
def addCpuLimit (opts : List UnitOption) (limit : Quantity) :
    Except String (List UnitOption) :=
  if limit.value > maxMilliValue then
    .error ("cpu limit exceeds the maximum millivalue: " ++ toString limit.milli ++ "m")
  else
    .ok (opts ++ [⟨"Service", "CPUQuota", toString (Int.tdiv limit.milliValue 10) ++ "%"⟩])

/-- `addMemoryLimit` from the cgroup package: append
`MemoryLimit=<value>` as a decimal byte count. -/
def addMemoryLimit (opts : List UnitOption) (limit : Quantity) :
    Except String (List UnitOption) :=
  .ok (opts ++ [⟨"Service", "MemoryLimit", toString limit.value⟩])

/-- The `cgroupControllerRWFiles` map of the cgroup package. -/
def cgroupControllerRWFiles (isolator : String) : Option (List String) :=
  if isolator = "memory" then some ["memory.limit_in_bytes"]
  else if isolator = "cpu" then some ["cpu.cfs_quota_us"]
  else none

/-- `IsIsolatorSupported`: every required knob file for the controller exists
under the live host `/sys/fs/cgroup/<isolator>/`.  The `os.Stat` existence
probe is a parameter `statExists` on the probed path string. -/
def IsIsolatorSupported (statExists : String → Bool) (isolator : String) : Bool :=
  match cgroupControllerRWFiles isolator with
  | some files => files.all (fun f => statExists ("/sys/fs/cgroup/" ++ isolator ++ "/" ++ f))
  | none => false

/-- `MaybeAddIsolator`: a nil limit leaves `opts` unchanged; a supported
isolator dispatches through the `isolatorFuncs` map (whose only keys are
`"cpu"` and `"memory"`, the same keys as `cgroupControllerRWFiles`); an
unsupported isolator prints a warning and leaves `opts` unchanged. -/
def MaybeAddIsolator (statExists : String → Bool) (opts : List UnitOption)
    (isolator : String) (limit : Option Quantity) :
    Except String (List UnitOption) :=
  match limit with
  | none => .ok opts
  | some l =>
    if IsIsolatorSupported statExists isolator then
      if isolator = "cpu" then addCpuLimit opts l
      else if isolator = "memory" then addMemoryLimit opts l
      else .ok opts
    else .ok opts

/-- The `types.Isolator` values the `appToSystemd` isolator loop
distinguishes: `*types.ResourceMemory`, `*types.ResourceCPU` (each carrying a
possibly-nil `Limit()`), and every other isolator kind. -/
inductive Isolator where
  | resourceMemory (limit : Option Quantity)
  | resourceCPU (limit : Option Quantity)
  | otherKind
deriving DecidableEq, Repr

/-- The isolator loop of `appToSystemd` (pod.go lines 510-523): scan
`app.Isolators` in declaration order and hand each memory/CPU isolator to
`cgroup.MaybeAddIsolator`, threading `opts` and stopping at the first
error. -/
def processIsolators (statExists : String → Bool) (opts : List UnitOption) :
    List Isolator → Except String (List UnitOption)
  | [] => .ok opts
  | i :: rest =>
    match i with
    | .resourceMemory l =>
      match MaybeAddIsolator statExists opts "memory" l with
      | .error e => .error e
      | .ok opts2 => processIsolators statExists opts2 rest
    | .resourceCPU l =>
      match MaybeAddIsolator statExists opts "cpu" l with
      | .error e => .error e
      | .ok opts2 => processIsolators statExists opts2 rest
    | .otherKind => processIsolators statExists opts rest

/-- The option(s) a single isolator contributes, used to state theorems about
`processIsolators`. -/
def isolatorContribution (statExists : String → Bool) : Isolator → List UnitOption
  | .resourceMemory (some l) =>
    if IsIsolatorSupported statExists "memory" then
      [⟨"Service", "MemoryLimit", toString l.value⟩]
    else []
  | .resourceCPU (some l) =>
    if IsIsolatorSupported statExists "cpu" then
      [⟨"Service", "CPUQuota", toString (Int.tdiv l.milliValue 10) ++ "%"⟩]
    else []
  | _ => []

/-- No CPU isolator in the list both passes the support probe and exceeds the
representable maximum (the condition under which `processIsolators` cannot
fail). -/
def noCpuOverLimit (statExists : String → Bool) (isolators : List Isolator) : Bool :=
  isolators.all (fun i =>
    match i with
    | .resourceCPU (some l) =>
      !(IsIsolatorSupported statExists "cpu") || !(l.value > maxMilliValue)
    | _ => true)

/-! ## `writeShutdownService` (pod.go lines 670-713). -/

/-- The shutdown verb selection of `writeShutdownService`: systemd older than
v227 (but with a detectable version) outside the coreos flavor only supports
`halt`; every other case uses `exit`. -/
def shutdownVerb (flavor : String) (systemdVersion : Int) : String :=
  if flavor ≠ "coreos" ∧ systemdVersion ≠ 0 ∧ systemdVersion < 227 then "halt"
  else "exit"

/-- The unit options `writeShutdownService` serializes into
`shutdown.service` (the file write itself is I/O and elided). -/
def writeShutdownServiceOpts (flavor : String) (systemdVersion : Int) :
    List UnitOption :=
  [⟨"Unit", "Description", "Pod shutdown"⟩,
   ⟨"Unit", "AllowIsolate", "true"⟩,
   ⟨"Unit", "StopWhenUnneeded", "yes"⟩,
   ⟨"Unit", "DefaultDependencies", "false"⟩,
   ⟨"Service", "RemainAfterExit", "yes"⟩]
  ++ [⟨"Service", "ExecStop", "/usr/bin/systemctl --force " ++ shutdownVerb flavor systemdVersion⟩]

/-! ## Socket-activated ports (pod.go lines 255-265 and 503-554). -/

/-- `types.Port` of an app image manifest: name, protocol, in-image port
number and the socket-activation flag. -/
structure Port where
  name : String
  protocol : String
  port : Nat
  socketActivated : Bool
deriving DecidableEq, Repr

/-- A pod-manifest `ports` entry (`types.ExposedPort`): name and host port. -/
structure ExposedPort where
  name : String
  hostPort : Nat
deriving DecidableEq, Repr

/-- `findHostPort`: scan every pod-manifest port entry and remember the host
port of each entry whose name matches (so a later match overwrites an earlier
one); `0` when nothing matched. -/
def findHostPort (pmPorts : List ExposedPort) (name : String) : Nat :=
  pmPorts.foldl (fun port p => if p.name = name then p.hostPort else port) 0

/-- The operator warning `appToSystemd` logs when no host port mapping exists
for a socket-activated port. -/
def warnNoPortMsg (sap : Port) : String :=
  "warning: no --port option for socket-activated port " ++ sap.name ++
  ", assuming port " ++ toString sap.port ++ " as specified in the manifest"

/-- The `for _, sap := range saPorts` loop of `appToSystemd` (lines 533-554):
map the protocol to a listener directive (anything but tcp/udp is a fatal
error), pick the host port from the pod manifest falling back to the in-image
port with a warning, and append one `Socket` option per port.  Warnings are
accumulated explicitly since the Go code emits them on the log. -/
def buildSocketOptsLoop (pmPorts : List ExposedPort) :
    List Port → List UnitOption → List String →
    Except String (List UnitOption × List String)
  | [], opts, warns => .ok (opts, warns)
  | sap :: rest, opts, warns =>
    match (if sap.protocol = "tcp" then .ok "ListenStream"
           else if sap.protocol = "udp" then .ok "ListenDatagram"
           else .error ("unrecognized protocol: " ++ sap.protocol) :
           Except String String) with
    | .error e => .error e
    | .ok proto =>
      let hp := findHostPort pmPorts sap.name
      let port := if hp = 0 then sap.port else hp
      let warns2 := if hp = 0 then warns ++ [warnNoPortMsg sap] else warns
      buildSocketOptsLoop pmPorts rest (opts ++ [⟨"Socket", proto, toString port⟩]) warns2

/-- The fixed options the socket unit starts with (lines 526-531).  The
service unit name comes from `ServiceUnitName`, defined in another file of
the package, so it is taken as the string parameter `serviceName`. -/
def socketInitOpts (appName imgName serviceName : String) : List UnitOption :=
  [⟨"Unit", "Description", "Application=" ++ appName ++ " Image=" ++ imgName ++ " socket-activated ports"⟩,
   ⟨"Unit", "DefaultDependencies", "false"⟩,
   ⟨"Socket", "BindIPv6Only", "both"⟩,
   ⟨"Socket", "Service", serviceName⟩]

/-- The socket-unit option list `appToSystemd` serializes for the
socket-activated ports of an app (the file write and symlink are I/O and
elided). -/
def buildSocketOpts (pmPorts : List ExposedPort)
    (appName imgName serviceName : String) (saPorts : List Port) :
    Except String (List UnitOption × List String) :=
  buildSocketOptsLoop pmPorts saPorts (socketInitOpts appName imgName serviceName) []

/-! ## IdentityResolver: `parseUserGroup` (pod.go lines 600-668). -/

/-- `uid.UidRange`: an optional user-namespace shift and count; the zero
value means host and container ids coincide. -/
structure UidRange where
  shift : Nat
  count : Nat
deriving DecidableEq, Repr

/-- Modelled from the spec: `(*uid.UidRange).UnshiftRange` lives in rkt's
`pkg/uid` package, which is not part of src/.  Per the spec it reverses the
namespace shift to obtain the range-relative id, the zero value means "no
shift", and it fails when the id lies outside the declared range. -/
def unshiftId (r : UidRange) (x : Nat) : Except String Nat :=
  if r.shift = 0 ∧ r.count = 0 then .ok x
  else if r.shift ≤ x ∧ x < r.shift + r.count then .ok (x - r.shift)
  else .error "id outside range"

/-- The collaborators `parseUserGroup` consults besides pure string
processing:
* `statOwner` models `syscall.Lstat` of a `/`-prefixed spec inside the app
  rootfs, returning the owning `(uid, gid)` of the file, `none` on error;
* `passwdUid` and `groupGid` model `passwd.LookupUidFromFile` and
  `group.LookupGidFromFile` (modelled from the spec: those helpers live in
  rkt packages outside src/ and look a name up in the app's own
  `/etc/passwd` / `/etc/group`), `none` on a failed lookup;
* `range` is the active user-namespace shift range. -/
structure IdentEnv where
  statOwner : String → Option (Nat × Nat)
  passwdUid : String → Option Int
  groupGid : String → Option Int
  range : UidRange

/-- The `switch` on `app.User` inside `parseUserGroup`: the literal
`"root"`, a `/`-prefixed in-app path (stat + unshift), a decimal integer via
`strconv.Atoi`, and finally a name lookup in the app's own passwd
database. -/
def parseUserSpec (env : IdentEnv) (user : String) : Except String Int :=
  if user = "root" then .ok 0
  else if hasPrefixGo user "/" then
    match env.statOwner user with
    | none => .error ("unable to get uid from file " ++ user)
    | some st =>
      match unshiftId env.range st.1 with
      | .error _ => .error "unable to determine real uid"
      | .ok u => .ok (Int.ofNat u)
  else
    match atoiGo user with
    | some n => .ok n
    | none =>
      match env.passwdUid user with
      | some n => .ok n
      | none => .error ("cannot lookup user " ++ user)

/-- The `switch` on `app.Group` inside `parseUserGroup`, mirror image of the
user switch over the gid side. -/
def parseGroupSpec (env : IdentEnv) (group : String) : Except String Int :=
  if group = "root" then .ok 0
  else if hasPrefixGo group "/" then
    match env.statOwner group with
    | none => .error ("unable to get gid from file " ++ group)
    | some st =>
      match unshiftId env.range st.2 with
      | .error _ => .error "unable to determine real gid"
      | .ok g => .ok (Int.ofNat g)
  else
    match atoiGo group with
    | some n => .ok n
    | none =>
      match env.groupGid group with
      | some n => .ok n
      | none => .error ("cannot lookup group " ++ group)

/-- `parseUserGroup`: resolve the `User` and `Group` fields of an app into a
uid/gid pair.  The Go function runs the two switches in sequence inside one
body; any failure aborts with the error (the Go `(-1, -1, err)` return). -/
def parseUserGroup (env : IdentEnv) (user group : String) :
    Except String (Int × Int) :=
  match parseUserSpec env user with
  | .error e => .error e
  | .ok uid_ =>
    match parseGroupSpec env group with
    | .error e => .error e
    | .ok gid_ => .ok (uid_, gid_)

/-! ## `quoteExec` / `execEscape` and the exec phase of `appToSystemd`
(pod.go lines 83-118, 391-501). -/

/-- One character of Go `%q` quoting (`fmt.Sprintf("%q", str)`), for the
printable-ASCII strings handled here (other control characters get hex
escapes in Go, not modelled).  Character codes: 34 `"`, 92 backslash. -/
def goQuoteChar (c : Char) : List Char :=
  if c = Char.ofNat 34 then [Char.ofNat 92, Char.ofNat 34]
  else if c = Char.ofNat 92 then [Char.ofNat 92, Char.ofNat 92]
  else if c = Char.ofNat 10 then [Char.ofNat 92, 'n']
  else if c = Char.ofNat 9 then [Char.ofNat 92, 't']
  else [c]

/-- Go `%q` string quoting: wrap in double quotes, escaping as above. -/
def goQuote (s : String) : String :=
  String.mk (Char.ofNat 34 :: (s.data.map goQuoteChar).flatten ++ [Char.ofNat 34])

/-- The regex replacement pass of `execEscape`: every single quote (code 39)
gets a backslash prepended, and for non-first arguments every `$` (code 36)
is doubled.  The two rules touch distinct characters, so the random
iteration order of the Go `escapeMap` does not affect the result. -/
def execEscapeChar (i : Nat) (c : Char) : List Char :=
  if c = Char.ofNat 39 then [Char.ofNat 92, Char.ofNat 39]
  else if i > 0 ∧ c = Char.ofNat 36 then [Char.ofNat 36, Char.ofNat 36]
  else [c]

/-- `execEscape(i, str)`: Go quoting followed by the positional escape
pass. -/
def execEscape (i : Nat) (str : String) : String :=
  String.mk (((goQuote str).data.map (execEscapeChar i)).flatten)

/-- `quoteExec`: `none` models the Go `panic("empty exec")` on an empty
list; otherwise the space-joined escaped arguments. -/
def quoteExecGo (exec : List String) : Option String :=
  match exec with
  | [] => none
  | _ => some (joinGo (exec.mapIdx (fun i a => execEscape i a)) " ")

/-- An app event handler (`types.EventHandler`): a name and an exec list. -/
structure EventHandler where
  name : String
  exec : List String
deriving DecidableEq, Repr

/-- The fields of an app that the exec phase of `appToSystemd` reads. -/
structure AppFragment where
  exec : List String
  user : String
  group : String
  eventHandlers : List EventHandler

/-- Outcome of the exec phase: a normal option list, a returned error, or a
Go runtime panic (which `appToSystemd` never catches). -/
inductive ExecOutcome where
  | ok (opts : List UnitOption)
  | fail (msg : String)
  | panicked (msg : String)
deriving DecidableEq, Repr

/-- The `for _, eh := range app.EventHandlers` loop of `appToSystemd`
(lines 486-498): unknown handler names are a fatal error, known ones append
an `ExecStartPre`/`ExecStopPost` option whose value is `quoteExec(eh.Exec)`
(which panics on an empty list). -/
def handlersLoop : List EventHandler → List UnitOption → ExecOutcome
  | [], opts => .ok opts
  | eh :: rest, opts =>
    match (if eh.name = "pre-start" then .ok "ExecStartPre"
           else if eh.name = "post-stop" then .ok "ExecStopPost"
           else .error ("unrecognized eventHandler: " ++ eh.name) :
           Except String String) with
    | .error e => .fail e
    | .ok typ =>
      match quoteExecGo eh.exec with
      | none => .panicked "empty exec"
      | some q => handlersLoop rest (opts ++ [⟨"Service", typ, q⟩])

/-- The exec phase of `appToSystemd` (lines 396-398, 429-432, 438-444,
456-457, 486-498): the empty-`Exec` guard, identity resolution, executable
path resolution (`findBinPath`, an I/O path search, is the parameter
`resolveBin`), the `ExecStart` quoting, and the event-handler loop.  The
intervening steps (`writeEnvFile`, `generateSysusers`, the uid-range
deserialization and the fixed option block) are I/O or constant option
appends that never call `quoteExec`; they are elided here, with I/O assumed
to succeed. -/
def appToSystemdExecPhase (env : IdentEnv)
    (resolveBin : String → Except String String) (app : AppFragment) :
    ExecOutcome :=
  match app.exec with
  | [] => .fail "image has an empty exec"
  | bin0 :: rest =>
    match parseUserGroup env app.user app.group with
    | .error e => .fail e
    | .ok _ =>
      match (if isAbsGo bin0 then .ok bin0 else resolveBin bin0 :
             Except String String) with
      | .error e => .fail e
      | .ok binPath =>
        match quoteExecGo (binPath :: rest) with
        | none => .panicked "empty exec"
        | some execStartString =>
          handlersLoop app.eventHandlers [⟨"Service", "ExecStart", execStartString⟩]

/-! ## PathResolver: `evaluateSymlinksInsideApp` (pod.go lines 761-806).

The app rootfs handed to the function is an absolute, already-cleaned path;
it is represented by its component list `root` and rendered to the string
`render root` wherever the Go code does string comparisons
(`strings.HasPrefix`, `strings.TrimPrefix`).  A single `filepath.Join`
followed by the implicit `filepath.Clean` is `cleanStep` for one raw
component and `joinPath` for a whole slash-separated string. -/

/-- Go map read: first binding of the key in an association list (keys are
unique in every map built here). -/
def lookupKey {α β : Type} [DecidableEq α] (k : α) : List (α × β) → Option β
  | [] => none
  | (k0, v) :: rest => if k0 = k then some v else lookupKey k rest

/-- What `os.Lstat` can report for a path: a directory, a regular file, or a
symbolic link carrying its `os.Readlink` target. -/
inductive FsEntry where
  | dir
  | file
  | symlink (target : String)
deriving DecidableEq, Repr

/-- The mode-bits test `fi.Mode()&os.ModeType == os.ModeSymlink`. -/
def FsEntry.isSymlink : FsEntry → Bool
  | .symlink _ => true
  | _ => false

/-- A finite filesystem: absolute cleaned paths (component lists) mapped to
entries; a missing path is `os.IsNotExist`. -/
abbrev FS := List (List String × FsEntry)

/-- `os.Lstat` on the modelled filesystem. -/
def fsLstat (fs : FS) (p : List String) : Option FsEntry :=
  lookupKey p fs

/-- `filepath.Clean` processing of one raw path component appended to an
absolute cleaned path: empty and `.` components vanish, `..` pops the last
component (staying at `/` when already there), anything else is
appended. -/
def cleanStep (l : List String) (c : String) : List String :=
  if c = "" ∨ c = "." then l
  else if c = ".." then l.dropLast
  else l ++ [c]

/-- `filepath.Join(l, s)` for an absolute cleaned base `l` and an arbitrary
slash path `s`. -/
def joinPath (l : List String) (s : String) : List String :=
  (splitOnSlashGo s).foldl cleanStep l

/-- The non-root part of the rendered path: components joined by `/`. -/
def renderComps : List String → String
  | [] => ""
  | [c] => c
  | c :: rest => c ++ "/" ++ renderComps rest

/-- The string form of an absolute cleaned path. -/
def render (l : List String) : String :=
  "/" ++ renderComps l

/-- The `for i, p := range paths` loop of `evaluateSymlinksInsideApp`:
`link` starts at the app rootfs and accumulates resolved components.  A
component that joins to something outside the rootfs prefix is a hard
error; a non-existing component makes the loop join the whole remaining
suffix and stop; a symlink target is re-anchored (absolute targets at the
rootfs, relative ones at the link so far) and re-checked for containment.
(The Go error messages interpolate the offending path; the messages here are
the fixed prefixes.) -/
def resolveGo (fs : FS) (root : List String) :
    List String → List String → Except String (List String)
  | [], link => .ok link
  | p :: rest, link =>
    let next := cleanStep link p
    if hasPrefixGo (render next) (render root) = false then
      .error "path escapes app root"
    else
      match fsLstat fs next with
      | none => .ok ((p :: rest).foldl cleanStep link)
      | some .dir => resolveGo fs root rest (cleanStep link p)
      | some .file => resolveGo fs root rest (cleanStep link p)
      | some (.symlink target) =>
        let link2 := if isAbsGo target then joinPath root target
                     else joinPath link target
        if hasPrefixGo (render link2) (render root) = false then
          .error "symlink escapes app root"
        else resolveGo fs root rest link2

/-- `evaluateSymlinksInsideApp(appRootfs, path)`: split the input on `/`,
run the resolution loop from the rootfs, and strip the rootfs prefix from
the final string. -/
def evaluateSymlinksInsideApp (fs : FS) (root : List String) (path : String) :
    Except String String :=
  match resolveGo fs root (splitOnSlashGo path) root with
  | .error e => .error e
  | .ok link => .ok (trimPrefixGo (render link) (render root))

/-! ## ControllerCatalog: `parseCgroups`, `getControllers`,
`getControllerSymlinks` (cgroup package). -/

/-- The four fields `fmt.Sscanf(line, "%s %d %d %d", ...)` fills from one
`/proc/cgroups` line. -/
structure CgroupLine where
  controller : String
  hierarchy : Int
  num : Int
  enabled : Int
deriving DecidableEq, Repr

/-- Whitespace-splitting of one line into `Sscanf` tokens. -/
def fieldsGo (l : String) : List String :=
  (splitByGo (fun c => c = ' ' ∨ c = '\t') l).filter (fun t => t ≠ "")

/-- `fmt.Sscanf(line, "%s %d %d %d", &controller, &hierarchy, &num,
&enabled)`: fields are filled left to right and scanning stops at the first
failure, leaving the later variables at their zero values. -/
def parseCgroupLine (l : String) : CgroupLine :=
  match fieldsGo l with
  | [] => ⟨"", 0, 0, 0⟩
  | c :: rest =>
    match rest with
    | [] => ⟨c, 0, 0, 0⟩
    | h :: rest2 =>
      match atoiGo h with
      | none => ⟨c, 0, 0, 0⟩
      | some hv =>
        match rest2 with
        | [] => ⟨c, hv, 0, 0⟩
        | n :: rest3 =>
          match atoiGo n with
          | none => ⟨c, hv, 0, 0⟩
          | some nv =>
            match rest3 with
            | [] => ⟨c, hv, nv, 0⟩
            | e :: _ =>
              match atoiGo e with
              | none => ⟨c, hv, nv, 0⟩
              | some ev => ⟨c, hv, nv, ev⟩

/-- `cgroups[hierarchy] = append(cgroups[hierarchy], controller)` preceded
by the create-if-absent branch.  The Go `map[int][]string` is modelled as an
association list in first-insertion order (map iteration order is random in
Go; nothing proved here depends on the order of distinct hierarchies). -/
def insertCgroup (m : List (Int × List String)) (h : Int) (c : String) :
    List (Int × List String) :=
  match m with
  | [] => [(h, [c])]
  | (h0, cs) :: rest =>
    if h0 = h then (h0, cs ++ [c]) :: rest
    else (h0, cs) :: insertCgroup rest h c

/-- The scanner loop of `parseCgroups` over the lines after the header:
every line whose `enabled` field is `1` contributes its controller to its
hierarchy's list. -/
def parseCgroupsBody (lines : List String) : List (Int × List String) :=
  lines.foldl (fun m l =>
    let t := parseCgroupLine l
    if t.enabled = 1 then insertCgroup m t.hierarchy t.controller else m) []

/-- `parseCgroups`: skip the first (header) line, then scan the rest. -/
def parseCgroups (lines : List String) : List (Int × List String) :=
  match lines with
  | [] => []
  | _header :: rest => parseCgroupsBody rest

/-- `getControllers`: the comma-joined mount name of every hierarchy. -/
def getControllers (cgroups : List (Int × List String)) : List String :=
  cgroups.map (fun e => joinGo e.2 ",")

/-- `getControllerSymlinks`: every hierarchy with more than one controller
maps each member name to the comma-joined name.  The Go `map[string]string`
is modelled as the accumulated binding list (controller names are unique
across hierarchies in `/proc/cgroups`, making the map unambiguous). -/
def getControllerSymlinks (cgroups : List (Int × List String)) :
    List (String × String) :=
  cgroups.foldl (fun sym e =>
    if e.2.length > 1 then sym ++ e.2.map (fun ln => (ln, joinGo e.2 ",")) else sym) []

/-! ## Specification-side helpers used only in theorem statements. -/

/-- The listener directive the claim assigns to a protocol (for tcp/udp
ports). -/
def listenDirective (sap : Port) : String :=
  if sap.protocol = "tcp" then "ListenStream" else "ListenDatagram"

/-- The port number the socket unit ends up with: the pod-manifest host port
when one was found, otherwise the in-image port. -/
def chosenPort (pmPorts : List ExposedPort) (sap : Port) : Nat :=
  if findHostPort pmPorts sap.name = 0 then sap.port else findHostPort pmPorts sap.name

/-- The warnings a single socket-activated port contributes. -/
def portWarnings (pmPorts : List ExposedPort) (sap : Port) : List String :=
  if findHostPort pmPorts sap.name = 0 then [warnNoPortMsg sap] else []

/-- The path exists and is not a symbolic link on the modelled
filesystem. -/
def statNonSymlink (fs : FS) (p : List String) : Bool :=
  match fsLstat fs p with
  | some e => !e.isSymlink
  | none => false

/-- Every successive component of the relative path exists under `base` and
none is a symbolic link: the claim's notion of an already-resolved path. -/
def pathResolved (fs : FS) (base : List String) : List String → Bool
  | [] => true
  | c :: rest => statNonSymlink fs (base ++ [c]) && pathResolved fs (base ++ [c]) rest

/-- An ordinary path component: not empty, `.` or `..`. -/
def normalComp (c : String) : Bool :=
  c != "" && c != "." && c != ".."

/-- All components ordinary: the path is in canonical cleaned form. -/
def normalComps (cs : List String) : Bool :=
  cs.all normalComp

/-- The controllers that the post-header lines assign to hierarchy `h`, in
line order: the enabled lines whose hierarchy field is `h`. -/
def controllersOf (lines : List String) (h : Int) : List String :=
  lines.filterMap (fun l =>
    let t := parseCgroupLine l
    if t.enabled = 1 ∧ t.hierarchy = h then some t.controller else none)

/-! # Theorems -/

/-- Claim C4: `addCpuLimit` interprets the quantity as milli-units and
converts to a percentage by truncated division by 10 (1000 maps to "100%",
500 to "50%"), fails with an over-limit error whenever the value exceeds the
representable maximum, and `addMemoryLimit` always emits the value as a
decimal byte count. -/
theorem c4_cpu_memory_limits (opts : List UnitOption) (q : Quantity) :
    addCpuLimit opts ⟨1000⟩ = .ok (opts ++ [⟨"Service", "CPUQuota", "100%"⟩])
    ∧ addCpuLimit opts ⟨500⟩ = .ok (opts ++ [⟨"Service", "CPUQuota", "50%"⟩])
    ∧ (q.value ≤ maxMilliValue →
        addCpuLimit opts q =
          .ok (opts ++ [⟨"Service", "CPUQuota", toString (Int.tdiv q.milliValue 10) ++ "%"⟩]))
    ∧ (maxMilliValue < q.value → ∃ msg, addCpuLimit opts q = .error msg)
    ∧ addMemoryLimit opts q = .ok (opts ++ [⟨"Service", "MemoryLimit", toString q.value⟩]) := by
  refine ⟨rfl, rfl, fun h => ?_, fun h => ?_, rfl⟩
  · unfold addCpuLimit
    rw [if_neg (not_lt.mpr h)]
  · exact ⟨_, by unfold addCpuLimit; rw [if_pos h]⟩

/-- Witness for C4 at concrete quantities: 2000000 milli-units pass the
limit check and yield a 200000% quota, while a quantity above the maximum
milli-value is rejected. -/
theorem c4_cpu_memory_limits_witness :
    addCpuLimit [] ⟨2000000⟩ =
      .ok ([] ++ [⟨"Service", "CPUQuota",
        toString (Int.tdiv (Quantity.mk 2000000).milliValue 10) ++ "%"⟩])
    ∧ (∃ msg, addCpuLimit [] ⟨9300000000000000000000⟩ = .error msg) :=
  ⟨(c4_cpu_memory_limits [] ⟨2000000⟩).2.2.1 (by decide),
   (c4_cpu_memory_limits [] ⟨9300000000000000000000⟩).2.2.2.1 (by decide)⟩

/-- Claim C10: the shutdown service uses the `halt` verb exactly when the
flavor is not "coreos", the systemd version was detectable (nonzero) and is
strictly below 227; in every other case it uses `exit`. -/
theorem c10_shutdown_verb (flavor : String) (v : Int) :
    ((⟨"Service", "ExecStop", "/usr/bin/systemctl --force halt"⟩ : UnitOption) ∈
        writeShutdownServiceOpts flavor v ↔
      flavor ≠ "coreos" ∧ v ≠ 0 ∧ v < 227)
    ∧ ((⟨"Service", "ExecStop", "/usr/bin/systemctl --force exit"⟩ : UnitOption) ∈
        writeShutdownServiceOpts flavor v ↔
      ¬(flavor ≠ "coreos" ∧ v ≠ 0 ∧ v < 227)) := by
  by_cases h : flavor ≠ "coreos" ∧ v ≠ 0 ∧ v < 227
  · unfold writeShutdownServiceOpts shutdownVerb
    rw [if_pos h]
    exact ⟨⟨fun _ => h, fun _ => by decide⟩,
           ⟨fun hm => absurd hm (by decide), fun hn => absurd h hn⟩⟩
  · unfold writeShutdownServiceOpts shutdownVerb
    rw [if_neg h]
    exact ⟨⟨fun hm => absurd hm (by decide), fun hc => absurd hc h⟩,
           ⟨fun _ => h, fun _ => by decide⟩⟩

/-- Claim C1 (evaluation at the failing input): with only the app rootfs
`/app` existing, resolving `/a/../../etc/passwd` hits the non-existing
component `a`, joins the remaining suffix including both `..` steps without
re-checking containment, and returns `/etc/passwd` with no error — a result
that does not even carry the rootfs prefix, although the resolution chain
left the root. -/
theorem c1_pathResolver_escape_eval :
    evaluateSymlinksInsideApp [(["app"], .dir)] ["app"] "/a/../../etc/passwd"
      = .ok "/etc/passwd"
    ∧ hasPrefixGo "/etc/passwd" (render ["app"]) = false :=
  ⟨rfl, rfl⟩

/-- Counterexample to claim C2: two memory isolators declared by one app
both append a `MemoryLimit` option (100 MB then 200 MB, in declaration
order), so more than one memory option reaches the service unit. -/
theorem c2_duplicate_memory_counterexample :
    processIsolators (fun _ => true) []
      [.resourceMemory (some ⟨104857600000⟩), .resourceMemory (some ⟨209715200000⟩)]
      = .ok [⟨"Service", "MemoryLimit", "104857600"⟩, ⟨"Service", "MemoryLimit", "209715200"⟩]
    ∧ ([(⟨"Service", "MemoryLimit", "104857600"⟩ : UnitOption),
        ⟨"Service", "MemoryLimit", "209715200"⟩].countP
          (fun o => o.Name == "MemoryLimit")) = 2 :=
  ⟨rfl, rfl⟩

/-- Counterexample to claim C3: the user spec `"-1"` parses as a decimal
integer and yields the negative uid `-1`, and the group spec `"0"` — which
is not the literal `"root"` — yields the root gid `0`. -/
theorem c3_numeric_spec_counterexample :
    parseUserGroup ⟨fun _ => none, fun _ => none, fun _ => none, ⟨0, 0⟩⟩ "-1" "0"
      = .ok (-1, 0)
    ∧ (-1 : Int) < 0
    ∧ ("0" : String) ≠ "root" :=
  ⟨rfl, by decide, by decide⟩

/-- Counterexample to claim C6: the relative path `a`, all of whose
components exist under the rootfs and none of which is a symlink, resolves
to `/a` rather than to itself — the result is reanchored at `/`, so
resolution is not the identity on every already-resolved path. -/
theorem c6_relative_path_counterexample :
    evaluateSymlinksInsideApp [(["app"], .dir), (["app", "a"], .dir)] ["app"] "a"
      = .ok "/a"
    ∧ ("/a" : String) ≠ "a" :=
  ⟨rfl, by decide⟩

/-- Counterexample to claim C8: a pod-manifest entry matching the port name
but declaring host port 0 is treated as missing — the socket unit gets the
in-image port 8080 and the operator warning fires even though an entry for
the name exists. -/
theorem c8_zero_hostport_counterexample :
    buildSocketOpts [⟨"http", 0⟩] "a" "img" "a.service" [⟨"http", "tcp", 8080, true⟩]
      = .ok (socketInitOpts "a" "img" "a.service" ++ [⟨"Socket", "ListenStream", "8080"⟩],
             [warnNoPortMsg ⟨"http", "tcp", 8080, true⟩])
    ∧ (ExposedPort.mk "http" 0).name = "http"
    ∧ ("8080" : String) ≠ toString (ExposedPort.mk "http" 0).hostPort :=
  ⟨rfl, rfl, by decide⟩

/-- Counterexample to claim C9: an app whose own `Exec` is non-empty passes
the guard, but its `pre-start` event handler declares an empty exec list,
which reaches `quoteExec` and triggers the panic — the panic is not
unreachable past the guard. -/
theorem c9_event_handler_panic_counterexample :
    appToSystemdExecPhase ⟨fun _ => none, fun _ => none, fun _ => none, ⟨0, 0⟩⟩
      (fun _ => .error "not found")
      ⟨["/bin/sh"], "root", "root", [⟨"pre-start", []⟩]⟩
      = .panicked "empty exec"
    ∧ (["/bin/sh"] : List String) ≠ [] :=
  ⟨rfl, by decide⟩

/-- Amended claim C2 (helper-free statement): every CPU or memory isolator
with a non-nil limit whose controller passes the kernel-support probe
appends exactly one option, in declaration order — `k` isolators of the same
kind yield `k` options, not just the first. -/
theorem c2_isolator_options_in_order (statExists : String → Bool)
    (opts : List UnitOption) (isolators : List Isolator)
    (h : noCpuOverLimit statExists isolators = true) :
    processIsolators statExists opts isolators =
      .ok (opts ++ (isolators.map (isolatorContribution statExists)).flatten) := by
  induction isolators generalizing opts with
  | nil => simp [processIsolators]
  | cons i rest ih =>
    simp only [noCpuOverLimit, List.all_cons, Bool.and_eq_true] at h
    obtain ⟨h1, h2⟩ := h
    have ih2 : ∀ o, processIsolators statExists o rest =
        .ok (o ++ (rest.map (isolatorContribution statExists)).flatten) :=
      fun o => ih o h2
    cases i with
    | otherKind => simp [processIsolators, isolatorContribution, ih2]
    | resourceMemory l =>
      cases l with
      | none => simp [processIsolators, MaybeAddIsolator, isolatorContribution, ih2]
      | some q =>
        by_cases hs : IsIsolatorSupported statExists "memory"
        · simp [processIsolators, MaybeAddIsolator, hs, addMemoryLimit,
                isolatorContribution, ih2]
        · simp [processIsolators, MaybeAddIsolator, hs, isolatorContribution, ih2]
    | resourceCPU l =>
      cases l with
      | none => simp [processIsolators, MaybeAddIsolator, isolatorContribution, ih2]
      | some q =>
        by_cases hs : IsIsolatorSupported statExists "cpu"
        · simp only [hs, Bool.not_true, Bool.false_or] at h1
          have hval : ¬(q.value > maxMilliValue) := by
            simpa using h1
          simp [processIsolators, MaybeAddIsolator, hs, addCpuLimit, hval,
                isolatorContribution, ih2]
        · simp [processIsolators, MaybeAddIsolator, hs, isolatorContribution, ih2]

/-- Witness for C2 at a concrete input: the two memory isolators of the
counterexample both contribute, in order. -/
theorem c2_isolator_options_in_order_witness :
    processIsolators (fun _ => true) []
      [.resourceMemory (some ⟨104857600000⟩), .resourceMemory (some ⟨209715200000⟩)]
      = .ok ([] ++ (([Isolator.resourceMemory (some ⟨104857600000⟩),
                      .resourceMemory (some ⟨209715200000⟩)].map
                      (isolatorContribution (fun _ => true))).flatten)) :=
  c2_isolator_options_in_order (fun _ => true) []
    [.resourceMemory (some ⟨104857600000⟩), .resourceMemory (some ⟨209715200000⟩)]
    (by decide)

/-- Amended claim C3: `parseUserGroup` resolves the literal `"root"` to id 0
and resolves any spec that parses as a decimal integer to exactly that
integer — so id 0 also arises from the spec `"0"`, and negative specs
produce negative ids; the `"root"` sentinel is a sufficient but not
necessary source of id 0. -/
theorem c3_root_and_numeric_specs (env : IdentEnv) (u g : String) (nu ng : Int)
    (hu : atoiGo u = some nu) (hg : atoiGo g = some ng)
    (hur : u ≠ "root") (hgr : g ≠ "root")
    (hus : hasPrefixGo u "/" = false) (hgs : hasPrefixGo g "/" = false) :
    parseUserGroup env "root" "root" = .ok (0, 0)
    ∧ parseUserGroup env u g = .ok (nu, ng) := by
  constructor
  · rfl
  · unfold parseUserGroup parseUserSpec parseGroupSpec
    rw [if_neg hur, if_neg hgr, hus, hgs]
    simp [hu, hg]

/-- Witness for C3 at concrete specs `"65534"` and `"0"`. -/
theorem c3_root_and_numeric_specs_witness :
    parseUserGroup ⟨fun _ => none, fun _ => none, fun _ => none, ⟨0, 0⟩⟩ "root" "root"
      = .ok (0, 0)
    ∧ parseUserGroup ⟨fun _ => none, fun _ => none, fun _ => none, ⟨0, 0⟩⟩ "65534" "0"
      = .ok (65534, 0) :=
  c3_root_and_numeric_specs ⟨fun _ => none, fun _ => none, fun _ => none, ⟨0, 0⟩⟩
    "65534" "0" 65534 0 (by decide) (by decide) (by decide) (by decide)
    (by decide) (by decide)

/-- Characterization of the socket loop on lists of valid-protocol ports:
one `Socket` option per port with the protocol-determined directive and the
host-or-fallback port, plus one warning per port that needed the
fallback. -/
theorem buildSocketOptsLoopOk (pm : List ExposedPort) (saPorts : List Port) :
    ∀ (opts : List UnitOption) (warns : List String),
      (∀ sap ∈ saPorts, sap.protocol = "tcp" ∨ sap.protocol = "udp") →
      buildSocketOptsLoop pm saPorts opts warns =
        .ok (opts ++ saPorts.map (fun sap =>
               ⟨"Socket", listenDirective sap, toString (chosenPort pm sap)⟩),
             warns ++ (saPorts.map (portWarnings pm)).flatten) := by
  induction saPorts with
  | nil => intro opts warns _; simp [buildSocketOptsLoop]
  | cons sap rest ih =>
    intro opts warns hall
    have hrest : ∀ s ∈ rest, s.protocol = "tcp" ∨ s.protocol = "udp" :=
      fun s hs => hall s (List.mem_cons_of_mem _ hs)
    have hsap := hall sap (List.mem_cons_self _ _)
    by_cases hhp : findHostPort pm sap.name = 0
    · rcases hsap with hproto | hproto <;>
        simp [buildSocketOptsLoop, hproto, hhp, ih _ _ hrest,
              listenDirective, chosenPort, portWarnings]
    · rcases hsap with hproto | hproto <;>
        simp [buildSocketOptsLoop, hproto, hhp, ih _ _ hrest,
              listenDirective, chosenPort, portWarnings]

/-- A port with a protocol other than tcp/udp anywhere in the list makes the
socket loop fail. -/
theorem buildSocketOptsLoopErr (pm : List ExposedPort) (saPorts : List Port) :
    ∀ (opts : List UnitOption) (warns : List String) (sap : Port),
      sap ∈ saPorts → sap.protocol ≠ "tcp" → sap.protocol ≠ "udp" →
      ∃ e, buildSocketOptsLoop pm saPorts opts warns = .error e := by
  induction saPorts with
  | nil => intro opts warns sap hmem _ _; cases hmem
  | cons hd rest ih =>
    intro opts warns sap hmem ht hu
    by_cases h1 : hd.protocol = "tcp"
    · have hm2 : sap ∈ rest := by
        rcases List.mem_cons.mp hmem with heq | hm
        · exact absurd (heq ▸ h1) ht
        · exact hm
      simpa [buildSocketOptsLoop, h1] using ih _ _ sap hm2 ht hu
    · by_cases h2 : hd.protocol = "udp"
      · have hm2 : sap ∈ rest := by
          rcases List.mem_cons.mp hmem with heq | hm
          · exact absurd (heq ▸ h2) hu
          · exact hm
        simpa [buildSocketOptsLoop, h1, h2] using ih _ _ sap hm2 ht hu
      · exact ⟨"unrecognized protocol: " ++ hd.protocol,
          by simp [buildSocketOptsLoop, h1, h2]⟩

/-- Claim C7: a socket-activated port with protocol `"tcp"` yields a
`ListenStream` directive, `"udp"` yields `ListenDatagram`, and any other
protocol string fails socket-unit generation for the app. -/
theorem c7_protocol_directives (pm : List ExposedPort) (an im sn : String)
    (saPorts : List Port) (sap : Port) :
    (sap.protocol = "tcp" →
      buildSocketOpts pm an im sn [sap] =
        .ok (socketInitOpts an im sn ++
              [⟨"Socket", "ListenStream", toString (chosenPort pm sap)⟩],
             portWarnings pm sap))
    ∧ (sap.protocol = "udp" →
      buildSocketOpts pm an im sn [sap] =
        .ok (socketInitOpts an im sn ++
              [⟨"Socket", "ListenDatagram", toString (chosenPort pm sap)⟩],
             portWarnings pm sap))
    ∧ (sap ∈ saPorts → sap.protocol ≠ "tcp" → sap.protocol ≠ "udp" →
        ∃ e, buildSocketOpts pm an im sn saPorts = .error e) := by
  refine ⟨fun ht => ?_, fun hu => ?_, fun hmem hnt hnu => ?_⟩
  · have := buildSocketOptsLoopOk pm [sap] (socketInitOpts an im sn) []
      (by intro s hs; rw [List.mem_singleton.mp hs]; exact .inl ht)
    simpa [listenDirective, ht] using this
  · have := buildSocketOptsLoopOk pm [sap] (socketInitOpts an im sn) []
      (by intro s hs; rw [List.mem_singleton.mp hs]; exact .inr hu)
    simpa [listenDirective, hu] using this
  · exact buildSocketOptsLoopErr pm saPorts _ _ sap hmem hnt hnu

/-- Witness for C7: a tcp port, a udp port, and an sctp failure at concrete
inputs. -/
theorem c7_protocol_directives_witness :
    buildSocketOpts [⟨"web", 8000⟩] "a" "img" "a.service" [⟨"web", "tcp", 80, true⟩]
      = .ok (socketInitOpts "a" "img" "a.service" ++
              [⟨"Socket", "ListenStream", toString (chosenPort [⟨"web", 8000⟩] ⟨"web", "tcp", 80, true⟩)⟩],
             portWarnings [⟨"web", 8000⟩] ⟨"web", "tcp", 80, true⟩)
    ∧ buildSocketOpts [] "a" "img" "a.service" [⟨"dns", "udp", 53, true⟩]
      = .ok (socketInitOpts "a" "img" "a.service" ++
              [⟨"Socket", "ListenDatagram", toString (chosenPort [] ⟨"dns", "udp", 53, true⟩)⟩],
             portWarnings [] ⟨"dns", "udp", 53, true⟩)
    ∧ ∃ e, buildSocketOpts [] "a" "img" "a.service" [⟨"x", "sctp", 1, true⟩] = .error e :=
  ⟨(c7_protocol_directives [⟨"web", 8000⟩] "a" "img" "a.service" [] ⟨"web", "tcp", 80, true⟩).1 rfl,
   (c7_protocol_directives [] "a" "img" "a.service" [] ⟨"dns", "udp", 53, true⟩).2.1 rfl,
   (c7_protocol_directives [] "a" "img" "a.service" [⟨"x", "sctp", 1, true⟩]
      ⟨"x", "sctp", 1, true⟩).2.2 (List.mem_singleton.mpr rfl) (by decide) (by decide)⟩

/-- Amended claim C8: the listen port is the host port found in the pod
manifest when that is nonzero; when no entry matches the name — or the
matching entry declares host port 0, since `findHostPort` cannot tell the
two apart — the in-image port is used instead and a warning is logged, and
generation continues.  Among several same-name entries the last one wins. -/
theorem c8_port_selection (pm : List ExposedPort) (an im sn : String) (sap : Port)
    (hp : sap.protocol = "tcp" ∨ sap.protocol = "udp") :
    buildSocketOpts pm an im sn [sap] =
      .ok (socketInitOpts an im sn ++
            [⟨"Socket", listenDirective sap,
              toString (if findHostPort pm sap.name = 0 then sap.port
                        else findHostPort pm sap.name)⟩],
           if findHostPort pm sap.name = 0 then [warnNoPortMsg sap] else [])
    ∧ ∀ (pm2 : List ExposedPort) (p : ExposedPort) (n : String),
        findHostPort (pm2 ++ [p]) n =
          if p.name = n then p.hostPort else findHostPort pm2 n := by
  constructor
  · have := buildSocketOptsLoopOk pm [sap] (socketInitOpts an im sn) []
      (by intro s hs; rw [List.mem_singleton.mp hs]; exact hp)
    simpa [chosenPort, portWarnings] using this
  · intro pm2 p n
    unfold findHostPort
    rw [List.foldl_append]
    rfl

/-- Witness for C8: the nonzero host port 8000 overrides the in-image port,
and appending a same-name entry overwrites the earlier host port. -/
theorem c8_port_selection_witness :
    buildSocketOpts [⟨"web", 8000⟩] "a" "img" "a.service" [⟨"web", "tcp", 80, true⟩]
      = .ok (socketInitOpts "a" "img" "a.service" ++
            [⟨"Socket", listenDirective ⟨"web", "tcp", 80, true⟩,
              toString (if findHostPort [⟨"web", 8000⟩] (Port.mk "web" "tcp" 80 true).name = 0
                        then (Port.mk "web" "tcp" 80 true).port
                        else findHostPort [⟨"web", 8000⟩] (Port.mk "web" "tcp" 80 true).name)⟩],
           if findHostPort [⟨"web", 8000⟩] (Port.mk "web" "tcp" 80 true).name = 0
           then [warnNoPortMsg ⟨"web", "tcp", 80, true⟩] else [])
    ∧ findHostPort ([⟨"web", 8000⟩] ++ [⟨"web", 9000⟩]) "web" =
        if (ExposedPort.mk "web" 9000).name = "web" then (ExposedPort.mk "web" 9000).hostPort
        else findHostPort [⟨"web", 8000⟩] "web" :=
  ⟨(c8_port_selection [⟨"web", 8000⟩] "a" "img" "a.service" ⟨"web", "tcp", 80, true⟩ (.inl rfl)).1,
   (c8_port_selection [] "a" "img" "a.service" ⟨"web", "tcp", 80, true⟩ (.inl rfl)).2
     [⟨"web", 8000⟩] ⟨"web", 9000⟩ "web"⟩

/-- The event-handler loop cannot reach the `quoteExec` panic as long as
every handler's exec list is non-empty. -/
theorem handlersLoopNoPanic (ehs : List EventHandler) :
    ∀ (opts : List UnitOption),
      (∀ eh ∈ ehs, eh.exec ≠ []) →
      ∀ msg, handlersLoop ehs opts ≠ .panicked msg := by
  induction ehs with
  | nil => intro opts _ msg h; simp [handlersLoop] at h
  | cons eh rest ih =>
    intro opts hne msg
    have hh : eh.exec ≠ [] := hne eh (List.mem_cons_self _ _)
    have hr : ∀ e ∈ rest, e.exec ≠ [] := fun e he => hne e (List.mem_cons_of_mem _ he)
    cases hq : eh.exec with
    | nil => exact absurd hq hh
    | cons a as =>
      by_cases h1 : eh.name = "pre-start"
      · simpa [handlersLoop, h1, hq, quoteExecGo] using ih _ hr msg
      · by_cases h2 : eh.name = "post-stop"
        · simpa [handlersLoop, h1, h2, hq, quoteExecGo] using ih _ hr msg
        · simp [handlersLoop, h1, h2]

/-- Amended claim C9: an empty app `Exec` list makes `appToSystemd` fail
before any unit is produced, and past that guard the `ExecStart` call of
`quoteExec` always receives a non-empty list — but the event-handler call
passes `eh.Exec` unchecked, so the panic is only unreachable when every
declared event handler has a non-empty exec list. -/
theorem c9_guard_and_panic_safety (env : IdentEnv)
    (resolveBin : String → Except String String) (app : AppFragment)
    (hh : ∀ eh ∈ app.eventHandlers, eh.exec ≠ []) :
    (app.exec = [] →
      appToSystemdExecPhase env resolveBin app = .fail "image has an empty exec")
    ∧ ∀ msg, appToSystemdExecPhase env resolveBin app ≠ .panicked msg := by
  constructor
  · intro he
    unfold appToSystemdExecPhase
    rw [he]
  · intro msg
    unfold appToSystemdExecPhase
    cases hex : app.exec with
    | nil => simp
    | cons b rest =>
      cases hpu : parseUserGroup env app.user app.group with
      | error e => simp
      | ok ug =>
        cases hbin : (if isAbsGo b then Except.ok b else resolveBin b :
            Except String String) with
        | error e => simp [hbin]
        | ok bp =>
          simpa [hbin, quoteExecGo] using handlersLoopNoPanic app.eventHandlers _ hh msg

/-- Witness for C9 at a concrete app: an empty exec list fails at the
guard, and the same outcome is not a panic. -/
theorem c9_guard_and_panic_safety_witness :
    appToSystemdExecPhase ⟨fun _ => none, fun _ => none, fun _ => none, ⟨0, 0⟩⟩
      (fun _ => .error "nf") ⟨[], "root", "root", []⟩
      = .fail "image has an empty exec"
    ∧ appToSystemdExecPhase ⟨fun _ => none, fun _ => none, fun _ => none, ⟨0, 0⟩⟩
      (fun _ => .error "nf") ⟨[], "root", "root", []⟩
      ≠ .panicked "empty exec" :=
  ⟨(c9_guard_and_panic_safety ⟨fun _ => none, fun _ => none, fun _ => none, ⟨0, 0⟩⟩
      (fun _ => .error "nf") ⟨[], "root", "root", []⟩ (by simp)).1 rfl,
   (c9_guard_and_panic_safety ⟨fun _ => none, fun _ => none, fun _ => none, ⟨0, 0⟩⟩
      (fun _ => .error "nf") ⟨[], "root", "root", []⟩ (by simp)).2 "empty exec"⟩

/-- Looking up the hierarchy that `insertCgroup` just extended returns the
old list (empty when absent) with the controller appended. -/
theorem lookupKeyInsertSame (m : List (Int × List String)) (h : Int) (c : String) :
    lookupKey h (insertCgroup m h c) = some (((lookupKey h m).getD []) ++ [c]) := by
  induction m with
  | nil => simp [insertCgroup, lookupKey]
  | cons e rest ih =>
    obtain ⟨h0, cs⟩ := e
    by_cases he : h0 = h
    · subst he; simp [insertCgroup, lookupKey]
    · simp [insertCgroup, lookupKey, he, ih]

/-- `insertCgroup` leaves every other hierarchy's list unchanged. -/
theorem lookupKeyInsertOther (m : List (Int × List String)) (h h2 : Int)
    (c : String) (hne : h2 ≠ h) :
    lookupKey h2 (insertCgroup m h c) = lookupKey h2 m := by
  induction m with
  | nil =>
    have hne2 : h ≠ h2 := fun q => hne q.symm
    simp [insertCgroup, lookupKey, hne2]
  | cons e rest ih =>
    obtain ⟨h0, cs⟩ := e
    by_cases he : h0 = h
    · subst he
      have hne2 : h0 ≠ h2 := fun q => hne q.symm
      simp [insertCgroup, lookupKey, hne2]
    · by_cases h02 : h0 = h2
      · subst h02
        simp [insertCgroup, lookupKey, he]
      · simp [insertCgroup, lookupKey, he, h02, ih]

/-- Characterization of the `parseCgroups` scanner loop: after folding the
remaining lines into an accumulator map, hierarchy `h` holds its old list
extended by the controllers of the enabled lines naming `h`, in line
order. -/
theorem parseCgroupsBodyAux (lines : List String) :
    ∀ (m : List (Int × List String)) (h : Int),
      lookupKey h (lines.foldl (fun m l =>
          let t := parseCgroupLine l
          if t.enabled = 1 then insertCgroup m t.hierarchy t.controller else m) m) =
        match lookupKey h m with
        | some cs => some (cs ++ controllersOf lines h)
        | none => if controllersOf lines h = [] then none
                  else some (controllersOf lines h) := by
  induction lines with
  | nil =>
    intro m h
    cases hm : lookupKey h m <;> simp [controllersOf, hm]
  | cons l rest ih =>
    intro m h
    simp only [List.foldl_cons]
    by_cases he : (parseCgroupLine l).enabled = 1
    · by_cases hh : (parseCgroupLine l).hierarchy = h
      · have hcons : controllersOf (l :: rest) h
            = (parseCgroupLine l).controller :: controllersOf rest h := by
          simp [controllersOf, he, hh]
        have hstep : (let t := parseCgroupLine l
            if t.enabled = 1 then insertCgroup m t.hierarchy t.controller else m)
            = insertCgroup m h (parseCgroupLine l).controller := by
          simp [he, hh]
        rw [hstep, ih, lookupKeyInsertSame, hcons]
        cases hm : lookupKey h m <;> simp [hm]
      · have hcons : controllersOf (l :: rest) h = controllersOf rest h := by
          simp [controllersOf, hh]
        have hstep : (let t := parseCgroupLine l
            if t.enabled = 1 then insertCgroup m t.hierarchy t.controller else m)
            = insertCgroup m (parseCgroupLine l).hierarchy (parseCgroupLine l).controller := by
          simp [he]
        rw [hstep, ih, lookupKeyInsertOther _ _ _ _ (fun q => hh q.symm), hcons]
    · have hcons : controllersOf (l :: rest) h = controllersOf rest h := by
        simp [controllersOf, he]
      have hstep : (let t := parseCgroupLine l
          if t.enabled = 1 then insertCgroup m t.hierarchy t.controller else m) = m := by
        simp [he]
      rw [hstep, ih, hcons]

/-- The symlink fold, rephrased as a flat map over the hierarchy list. -/
theorem symlinksFoldAux (m : List (Int × List String)) :
    ∀ (init : List (String × String)),
      m.foldl (fun sym e =>
        if e.2.length > 1 then sym ++ e.2.map (fun ln => (ln, joinGo e.2 ",")) else sym) init
      = init ++ m.flatMap (fun e =>
          if e.2.length > 1 then e.2.map (fun ln => (ln, joinGo e.2 ",")) else []) := by
  induction m with
  | nil => intro init; simp
  | cons e rest ih =>
    intro init
    by_cases hl : e.2.length > 1
    · simp [hl, ih, List.append_assoc]
    · simp [hl, ih]

/-- `getControllerSymlinks` in flat-map form. -/
theorem getControllerSymlinksEq (m : List (Int × List String)) :
    getControllerSymlinks m
      = m.flatMap (fun e =>
          if e.2.length > 1 then e.2.map (fun ln => (ln, joinGo e.2 ",")) else []) := by
  simpa [getControllerSymlinks] using symlinksFoldAux m []

/-- Lookup distributes over appended binding lists. -/
theorem lookupKeyAppend {α β : Type} [DecidableEq α] (k : α) (a b : List (α × β)) :
    lookupKey k (a ++ b) =
      match lookupKey k a with
      | some v => some v
      | none => lookupKey k b := by
  induction a with
  | nil => simp [lookupKey]
  | cons e rest ih =>
    obtain ⟨k0, v⟩ := e
    by_cases hk : k0 = k <;> simp [lookupKey, hk, ih]

/-- Lookup in a constant-valued binding list of the members of `cs`. -/
theorem lookupKeyMapConstMem {β : Type} (t : β) (c : String) (cs : List String)
    (hc : c ∈ cs) :
    lookupKey c (cs.map (fun ln => (ln, t))) = some t := by
  induction cs with
  | nil => cases hc
  | cons x rest ih =>
    by_cases hx : x = c
    · simp [lookupKey, hx]
    · rcases List.mem_cons.mp hc with heq | hm
      · exact absurd heq.symm hx
      · simp [lookupKey, hx, ih hm]

/-- A name outside `cs` is not bound by the constant-valued binding list. -/
theorem lookupKeyMapConstNotMem {β : Type} (t : β) (c : String) (cs : List String)
    (hc : c ∉ cs) :
    lookupKey c (cs.map (fun ln => (ln, t))) = none := by
  induction cs with
  | nil => rfl
  | cons x rest ih =>
    have hx : x ≠ c := fun q => hc (q ▸ List.mem_cons_self _ _)
    have hr : c ∉ rest := fun q => hc (List.mem_cons_of_mem _ q)
    simp [lookupKey, hx, ih hr]

/-- A controller name that belongs to no hierarchy of `m` gets no symlink
binding. -/
theorem lookupSymlinksNotMem (c : String) (m : List (Int × List String))
    (hnm : c ∉ m.flatMap (fun e => e.2)) :
    lookupKey c (m.flatMap (fun e =>
      if e.2.length > 1 then e.2.map (fun ln => (ln, joinGo e.2 ",")) else [])) = none := by
  induction m with
  | nil => rfl
  | cons e rest ih =>
    rw [List.flatMap_cons] at hnm
    have h1 : c ∉ e.2 := fun hc => hnm (List.mem_append.mpr (.inl hc))
    have h2 : c ∉ rest.flatMap (fun e => e.2) :=
      fun hc => hnm (List.mem_append.mpr (.inr hc))
    rw [List.flatMap_cons, lookupKeyAppend]
    by_cases hl : e.2.length > 1
    · rw [if_pos hl, lookupKeyMapConstNotMem _ _ _ h1]
      exact ih h2
    · rw [if_neg hl]
      exact ih h2

/-- Symlink lookup for a member of hierarchy `(h, cs)` of `m` (controller
names unique across hierarchies): the joined name when the hierarchy is
combined, nothing when it is a singleton. -/
theorem symlinkLookup (m : List (Int × List String))
    (hnd : (m.flatMap (fun e => e.2)).Nodup) :
    ∀ (h : Int) (cs : List String), (h, cs) ∈ m → ∀ c ∈ cs,
      lookupKey c (getControllerSymlinks m) =
        if 1 < cs.length then some (joinGo cs ",") else none := by
  induction m with
  | nil => intro h cs hm; cases hm
  | cons e rest ih =>
    intro h cs hm c hc
    rw [List.flatMap_cons] at hnd
    obtain ⟨hnd1, hnd2, hdisj⟩ := List.nodup_append.mp hnd
    rw [getControllerSymlinksEq, List.flatMap_cons, lookupKeyAppend]
    rcases List.mem_cons.mp hm with heq | hmr
    · have hecs : e.2 = cs := by rw [← heq]
      by_cases hl : 1 < cs.length
      · rw [if_pos (by rw [hecs]; exact hl), hecs,
            lookupKeyMapConstMem _ _ _ hc, if_pos hl]
      · have hnotin : c ∉ rest.flatMap (fun x => x.2) :=
          fun hcr => hdisj (hecs ▸ hc) hcr
        have hnone := lookupSymlinksNotMem c rest hnotin
        rw [if_neg (by rw [hecs]; exact hl)]
        simp [lookupKey, hnone, hl]
    · have hcr : c ∈ rest.flatMap (fun x => x.2) :=
        List.mem_flatMap.mpr ⟨(h, cs), hmr, hc⟩
      have h1 : c ∉ e.2 := fun hce => hdisj hce hcr
      have hrest := ih hnd2 h cs hmr c hc
      rw [getControllerSymlinksEq] at hrest
      by_cases hl : e.2.length > 1
      · rw [if_pos hl, lookupKeyMapConstNotMem _ _ _ h1]
        exact hrest
      · rw [if_neg hl]
        exact hrest

/-- Claim C5: `parseCgroups` ignores the header line; a hierarchy's entry is
exactly the controllers of the enabled (`enabled = 1`) body lines naming it,
in first-seen order (so disabled lines are dropped and grouping preserves
order); and `getControllerSymlinks` binds nothing for a single-controller
hierarchy while binding every member of a combined hierarchy to the
comma-joined name. -/
theorem c5_catalog_and_symlinks :
    (∀ (l1 l2 : String) (rest : List String),
      parseCgroups (l1 :: rest) = parseCgroups (l2 :: rest))
    ∧ (∀ (hd : String) (body : List String) (h : Int),
        lookupKey h (parseCgroups (hd :: body)) =
          if controllersOf body h = [] then none else some (controllersOf body h))
    ∧ (∀ (m : List (Int × List String)),
        (m.flatMap (fun e => e.2)).Nodup →
        ∀ (h : Int) (cs : List String), (h, cs) ∈ m → ∀ c ∈ cs,
          lookupKey c (getControllerSymlinks m) =
            if 1 < cs.length then some (joinGo cs ",") else none) := by
  refine ⟨fun l1 l2 rest => rfl, fun hd body h => ?_, symlinkLookup⟩
  have := parseCgroupsBodyAux body [] h
  simpa [parseCgroups, parseCgroupsBody, lookupKey] using this

/-- Witness for C5 at a concrete `/proc/cgroups` input: hierarchy 2 collects
`cpu` and `cpuacct` in order (the disabled `memory` line is dropped), the
combined hierarchy symlinks `cpu` to `cpu,cpuacct`, and the singleton
hierarchy gets no symlink. -/
theorem c5_catalog_and_symlinks_witness :
    parseCgroups ["#hdr", "cpu 2 1 1", "cpuacct 2 1 1", "memory 3 1 0"]
      = parseCgroups ["other header", "cpu 2 1 1", "cpuacct 2 1 1", "memory 3 1 0"]
    ∧ lookupKey 2 (parseCgroups ["#hdr", "cpu 2 1 1", "cpuacct 2 1 1", "memory 3 1 0"])
      = (if controllersOf ["cpu 2 1 1", "cpuacct 2 1 1", "memory 3 1 0"] 2 = []
         then none
         else some (controllersOf ["cpu 2 1 1", "cpuacct 2 1 1", "memory 3 1 0"] 2))
    ∧ lookupKey "cpu" (getControllerSymlinks [(2, ["cpu", "cpuacct"]), (4, ["devices"])])
      = (if 1 < (["cpu", "cpuacct"] : List String).length
         then some (joinGo ["cpu", "cpuacct"] ",") else none)
    ∧ lookupKey "devices" (getControllerSymlinks [(2, ["cpu", "cpuacct"]), (4, ["devices"])])
      = (if 1 < (["devices"] : List String).length
         then some (joinGo ["devices"] ",") else none) :=
  ⟨c5_catalog_and_symlinks.1 "#hdr" "other header"
      ["cpu 2 1 1", "cpuacct 2 1 1", "memory 3 1 0"],
   c5_catalog_and_symlinks.2.1 "#hdr" ["cpu 2 1 1", "cpuacct 2 1 1", "memory 3 1 0"] 2,
   c5_catalog_and_symlinks.2.2 [(2, ["cpu", "cpuacct"]), (4, ["devices"])] (by decide)
     2 ["cpu", "cpuacct"] (by decide) "cpu" (by decide),
   c5_catalog_and_symlinks.2.2 [(2, ["cpu", "cpuacct"]), (4, ["devices"])] (by decide)
     4 ["devices"] (by decide) "devices" (by decide)⟩

/-- A character list is a `isPrefixOf` itself extended on the right. -/
theorem isPrefixOfAppendLeft (a b : List Char) : a.isPrefixOf (a ++ b) = true := by
  induction a with
  | nil => cases b <;> rfl
  | cons c cs ih => simp [List.isPrefixOf, ih]

/-- `strings.HasPrefix` holds for any right extension. -/
theorem hasPrefixGoAppend (a b : String) : hasPrefixGo (a ++ b) a = true := by
  have hdata : (a ++ b).data = a.data ++ b.data := rfl
  simp only [hasPrefixGo, hdata]
  exact isPrefixOfAppendLeft a.data b.data

/-- `strings.HasPrefix` is reflexive. -/
theorem hasPrefixGoRefl (s : String) : hasPrefixGo s s = true := by
  have h := isPrefixOfAppendLeft s.data []
  rw [List.append_nil] at h
  exact h

/-- Rendering a cons with a non-empty tail splits off the head. -/
theorem renderCompsCons (c : String) (b : List String) (hb : b ≠ []) :
    renderComps (c :: b) = c ++ "/" ++ renderComps b := by
  cases b with
  | nil => exact absurd rfl hb
  | cons x xs => rfl

/-- Rendering distributes over appending two non-empty component lists. -/
theorem renderCompsAppend (b : List String) (hb : b ≠ []) :
    ∀ (a : List String), a ≠ [] →
      renderComps (a ++ b) = renderComps a ++ "/" ++ renderComps b := by
  intro a
  induction a with
  | nil => intro h; exact absurd rfl h
  | cons c rest ih =>
    intro _
    cases hr : rest with
    | nil =>
      rw [List.cons_append, List.nil_append, renderCompsCons c b hb]
      rfl
    | cons r rs =>
      subst hr
      rw [List.cons_append, renderCompsCons c ((r :: rs) ++ b) (by simp),
          renderCompsCons c (r :: rs) (by simp), ih (by simp)]
      simp [String.append_assoc]

/-- Rendered form of an appended absolute path. -/
theorem renderAppend (a b : List String) (ha : a ≠ []) (hb : b ≠ []) :
    render (a ++ b) = render a ++ ("/" ++ renderComps b) := by
  unfold render
  rw [renderCompsAppend b hb a ha]
  simp [String.append_assoc]

/-- The rendered root is a string prefix of every rendered extension of
it. -/
theorem hasPrefixGoRenderAppend (a b : List String) :
    hasPrefixGo (render (a ++ b)) (render a) = true := by
  cases hb : b with
  | nil => rw [List.append_nil]; exact hasPrefixGoRefl _
  | cons b0 bs =>
    cases ha : a with
    | nil =>
      rw [List.nil_append]
      show hasPrefixGo ("/" ++ renderComps (b0 :: bs)) ("/" ++ renderComps []) = true
      exact hasPrefixGoAppend "/" (renderComps (b0 :: bs))
    | cons a0 as =>
      rw [renderAppend (a0 :: as) (b0 :: bs) (by simp) (by simp)]
      exact hasPrefixGoAppend _ _

/-- `strings.TrimPrefix` of a rendered extension recovers the rendered
suffix (both parts non-empty, so the suffix keeps its leading slash). -/
theorem trimRenderAppend (a b : List String) (ha : a ≠ []) (hb : b ≠ []) :
    trimPrefixGo (render (a ++ b)) (render a) = render b := by
  rw [renderAppend a b ha hb]
  unfold trimPrefixGo
  rw [if_pos (hasPrefixGoAppend (render a) ("/" ++ renderComps b))]
  have hd : (render a ++ ("/" ++ renderComps b)).data
      = (render a).data ++ ("/" ++ renderComps b).data := rfl
  rw [hd, List.drop_left]
  rfl

/-- `filepath.Join` with an ordinary component appends it. -/
theorem cleanStepNormal (l : List String) (c : String) (hc : normalComp c = true) :
    cleanStep l c = l ++ [c] := by
  simp only [normalComp, Bool.and_eq_true, bne_iff_ne, ne_eq] at hc
  unfold cleanStep
  rw [if_neg (by simp [hc.1.1, hc.1.2]), if_neg hc.2]

/-- Unpacking the `statNonSymlink` probe. -/
theorem statNonSymlinkElim (fs : FS) (p : List String)
    (h : statNonSymlink fs p = true) :
    fsLstat fs p = some .dir ∨ fsLstat fs p = some .file := by
  unfold statNonSymlink at h
  cases he : fsLstat fs p with
  | none => rw [he] at h; cases h
  | some e =>
    rw [he] at h
    cases e with
    | dir => exact .inl rfl
    | file => exact .inr rfl
    | symlink t => simp [FsEntry.isSymlink] at h

/-- The resolution loop is the identity (up to re-anchoring) on a run of
ordinary components that all exist and are not symlinks: starting from
`root ++ acc`, consuming `cs` yields `root ++ acc ++ cs` with no error. -/
theorem resolveGoNoSymlinks (fs : FS) (root : List String) (cs : List String) :
    ∀ (acc : List String),
      normalComps cs = true →
      pathResolved fs (root ++ acc) cs = true →
      resolveGo fs root cs (root ++ acc) = .ok (root ++ acc ++ cs) := by
  induction cs with
  | nil => intro acc _ _; simp [resolveGo]
  | cons c rest ih =>
    intro acc hnc hpr
    simp only [normalComps, List.all_cons, Bool.and_eq_true] at hnc
    obtain ⟨hc, hrest⟩ := hnc
    simp only [pathResolved, Bool.and_eq_true] at hpr
    obtain ⟨hstat, hprr⟩ := hpr
    have hclean : cleanStep (root ++ acc) c = root ++ (acc ++ [c]) := by
      rw [cleanStepNormal _ _ hc, List.append_assoc]
    have hpre : hasPrefixGo (render (root ++ (acc ++ [c]))) (render root) = true :=
      hasPrefixGoRenderAppend root (acc ++ [c])
    have hstat2 : fsLstat fs ((root ++ acc) ++ [c]) = some .dir
        ∨ fsLstat fs ((root ++ acc) ++ [c]) = some .file :=
      statNonSymlinkElim fs ((root ++ acc) ++ [c]) hstat
    have hstat3 : fsLstat fs (root ++ (acc ++ [c])) = some .dir
        ∨ fsLstat fs (root ++ (acc ++ [c])) = some .file := by
      rw [← List.append_assoc]; exact hstat2
    have hih : resolveGo fs root rest (root ++ (acc ++ [c]))
        = .ok (root ++ (acc ++ [c]) ++ rest) := by
      apply ih (acc ++ [c]) hrest
      rw [← List.append_assoc]
      exact hprr
    rcases hstat3 with hfs | hfs <;>
      simp [resolveGo, hclean, hpre, hfs, hih, List.append_assoc]

/-- Amended claim C6: `evaluateSymlinksInsideApp` is the identity on every
path already in the resolver's own output format — absolute (leading
slash), cleaned (no empty, `.` or `..` components), with every prefix
existing under the app rootfs and none a symlink — provided the rootfs is
not `/` itself.  (Relative input paths come back re-anchored at `/`, see the
counterexample.) -/
theorem c6_idempotent_on_canonical_paths (fs : FS) (root cs : List String)
    (path : String)
    (hroot : root ≠ []) (hcs : cs ≠ [])
    (hsplit : splitOnSlashGo path = "" :: cs)
    (hpath : path = render cs)
    (hnorm : normalComps cs = true)
    (hstatroot : statNonSymlink fs root = true)
    (hresolved : pathResolved fs root cs = true) :
    evaluateSymlinksInsideApp fs root path = .ok path := by
  have hres : resolveGo fs root cs root = .ok (root ++ cs) := by
    have h2 := resolveGoNoSymlinks fs root cs [] hnorm (by simpa using hresolved)
    simpa using h2
  have hstep : resolveGo fs root ("" :: cs) root = .ok (root ++ cs) := by
    have hclean : cleanStep root "" = root := by simp [cleanStep]
    rcases statNonSymlinkElim fs root hstatroot with hfs | hfs <;>
      simp [resolveGo, hclean, hasPrefixGoRefl, hfs, hres]
  unfold evaluateSymlinksInsideApp
  rw [hsplit, hstep]
  simp [trimRenderAppend root cs hroot hcs, hpath]

/-- Witness for C6 at a concrete filesystem: the canonical resolved path
`/a/b` (directory `a`, file `b`, no symlinks) resolves to itself. -/
theorem c6_idempotent_on_canonical_paths_witness :
    evaluateSymlinksInsideApp
      [(["app"], .dir), (["app", "a"], .dir), (["app", "a", "b"], .file)]
      ["app"] "/a/b" = .ok "/a/b" :=
  c6_idempotent_on_canonical_paths
    [(["app"], .dir), (["app", "a"], .dir), (["app", "a", "b"], .file)]
    ["app"] ["a", "b"] "/a/b"
    (by decide) (by decide) (by decide) (by decide) (by decide) (by decide) (by decide)

/-- Witness for C10 at concrete inputs: flavor `src` with systemd 226 halts,
flavor `coreos` with the same version exits. -/
theorem c10_shutdown_verb_witness :
    (⟨"Service", "ExecStop", "/usr/bin/systemctl --force halt"⟩ : UnitOption) ∈
      writeShutdownServiceOpts "src" 226
    ∧ (⟨"Service", "ExecStop", "/usr/bin/systemctl --force exit"⟩ : UnitOption) ∈
      writeShutdownServiceOpts "coreos" 226 :=
  ⟨(c10_shutdown_verb "src" 226).1.mpr (by decide),
   (c10_shutdown_verb "coreos" 226).2.mpr (by simp)⟩
